import Mathlib

/-!
# Employee store handlers

A shallow embedding of `handlers/handler.go`: the in-memory employee store and its
five HTTP handlers (list, get, create, update, delete), followed by theorems about
them.

Modelling conventions.

* A Go `int` is a mathematical integer; the one arithmetic expression that can leave
  the 64-bit range, `(page - 1) * limit`, is wrapped explicitly by `wrapInt`.
* `map[int]Employee` is a finite map from integers to records (`Finmap`), so two
  stores are equal exactly when they hold the same entries.
* A request is what the handlers read from it: the URL query, the router variables
  and the outcome of decoding the body as JSON into an `Employee`.
* A response is the status code together with the value that was handed to the
  writer: the message given to `http.Error`, the text printed with `fmt.Fprintf`,
  or the value given to the JSON encoder.
* Every handler runs under the store lock for its whole body, so a handler is a
  function from the store before the call to the store after it and the response.
-/

namespace Handlers

/-- The record type `Employee`. `Salary` is a `float64` in the source; the handlers
only copy it, so it is carried as a natural number that stands for the value. -/
structure Employee where
  ID : Int
  Name : String
  Position : String
  Salary : Nat
  deriving DecidableEq, Repr

/-- The field `Employees map[int]Employee` of `EmployeeStore`. The mutex is not part
of the sequential state. -/
abbrev EmployeeStore : Type := Finmap (fun _ : Int => Employee)

/-- The constructor `NewEmployeeStore`: the empty mapping. -/
def NewEmployeeStore : EmployeeStore := ∅

/-- The builtin `len` on the mapping. -/
def len (es : EmployeeStore) : Nat := es.keys.card

/-- What a handler writes. -/
inductive Body where
  | error (msg : String)
  | text (s : String)
  | employee (e : Employee)
  | employees (l : List Employee)
  deriving DecidableEq, Repr

/-- Status code and body of an HTTP response. -/
structure Response where
  status : Nat
  body : Body
  deriving DecidableEq, Repr

/-- The constant `http.StatusOK`. -/
def StatusOK : Nat := 200

/-- The constant `http.StatusBadRequest`. -/
def StatusBadRequest : Nat := 400

/-- The constant `http.StatusNotFound`. -/
def StatusNotFound : Nat := 404

/-- The call `http.Error(w, msg, code)`: a response with that status whose body is
the message. -/
def httpError (msg : String) (code : Nat) : Response := ⟨code, Body.error msg⟩

/-- The parts of `*http.Request` the handlers read. `body` is the outcome of
`json.NewDecoder(r.Body).Decode(&employee)`: `none` when decoding fails. -/
structure Request where
  query : List (String × String)
  vars : List (String × String)
  body : Option Employee
  deriving DecidableEq, Repr

/-- First value stored under `key`, the empty string when there is none: both
`r.URL.Query().Get(key)` and indexing `mux.Vars(r)` behave so. -/
def getValue (kvs : List (String × String)) (key : String) : String :=
  match kvs.find? (fun kv => kv.1 == key) with
  | some kv => kv.2
  | none => ""

/-- Reduction of a machine integer to the 64-bit two's-complement range. -/
def wrapInt (x : Int) : Int := (x + 2 ^ 63) % 2 ^ 64 - 2 ^ 63

/-- The function `strconv.Atoi` on a 64-bit platform: an optional sign followed by at least one
decimal digit, and a value that fits the `int` type; `none` stands for an error. -/
def Atoi (s : String) : Option Int :=
  let cs := s.toList
  let neg := cs.head? == some '-'
  let ds := if cs.head? == some '-' ∨ cs.head? == some '+' then cs.tail else cs
  if ds.isEmpty then none
  else if ds.all Char.isDigit then
    let n : Nat := ds.foldl (fun a c => a * 10 + (c.toNat - 48)) 0
    let v : Int := if neg then -(n : Int) else (n : Int)
    if -(2 : Int) ^ 63 ≤ v ∧ v < 2 ^ 63 then some v else none
  else none

/-- Lines 33-36 of `ListEmployees`: the `page` query value, 1 when it does not parse
or is not positive. -/
def pageParam (r : Request) : Int :=
  match Atoi (getValue r.query "page") with
  | some page => if page ≤ 0 then 1 else page
  | none => 1

/-- Lines 37-40 of `ListEmployees`: the `limit` query value, 10 when it does not
parse or is not positive. -/
def limitParam (r : Request) : Int :=
  match Atoi (getValue r.query "limit") with
  | some limit => if limit ≤ 0 then 10 else limit
  | none => 10

/-- The values `id` takes in `for id := 1; id <= len(es.Employees); id++`. -/
def candidateIDs (es : EmployeeStore) : List Int :=
  (List.range' 1 (len es)).map Int.ofNat

/-- The loop of lines 48-61 over the remaining candidate identifiers, with the
current `offset` and the slice `employees` collected so far. -/
def scan (es : EmployeeStore) (limit : Int) :
    List Int → Int → List Employee → List Employee
  | [], _, employees => employees
  | id :: ids, offset, employees =>
    match es.lookup id with
    | none => scan es limit ids offset employees
    | some employee =>
      if offset > 0 then scan es limit ids (offset - 1) employees
      else if ((employees ++ [employee]).length : Int) ≥ limit then employees ++ [employee]
      else scan es limit ids offset (employees ++ [employee])

/-- The call `sort.Slice(employees, func(i, j int) bool { return employees[i].ID <
employees[j].ID })`: the slice reordered so that the `ID` fields ascend. Records with
equal `ID` keep their order here; `sort.Slice` does not promise that, and no theorem
below relies on it. -/
def sortByID (employees : List Employee) : List Employee :=
  employees.insertionSort (fun a b => a.ID ≤ b.ID)

/-- Lines 42-65 of `ListEmployees`: the slice that is encoded, for the given `page`
and `limit`. The product is taken in the 64-bit `int` type. -/
def listPage (es : EmployeeStore) (page limit : Int) : List Employee :=
  let offset := wrapInt ((page - 1) * limit)
  sortByID (scan es limit (candidateIDs es) offset [])

/-- The handler `ListEmployees`. -/
def ListEmployees (es : EmployeeStore) (r : Request) : EmployeeStore × Response :=
  let page := pageParam r
  let limit := limitParam r
  (es, ⟨StatusOK, Body.employees (listPage es page limit)⟩)

/-- The handler `GetEmployee`. -/
def GetEmployee (es : EmployeeStore) (r : Request) : EmployeeStore × Response :=
  match Atoi (getValue r.vars "id") with
  | none => (es, httpError "Invalid employee ID" StatusBadRequest)
  | some id =>
    match es.lookup id with
    | none => (es, httpError "Employee not found" StatusNotFound)
    | some employee => (es, ⟨StatusOK, Body.employee employee⟩)

/-- The handler `CreateEmployee`. The sum `len(es.Employees) + 1` is not wrapped: a
map cannot hold 2^63 - 1 entries. -/
def CreateEmployee (es : EmployeeStore) (r : Request) : EmployeeStore × Response :=
  let id : Int := (len es : Int) + 1
  match r.body with
  | none => (es, httpError "Invalid request payload" StatusBadRequest)
  | some employee =>
    let employee : Employee := { employee with ID := id }
    (es.insert id employee, ⟨StatusOK, Body.employee employee⟩)

/-- The handler `UpdateEmployee`. -/
def UpdateEmployee (es : EmployeeStore) (r : Request) : EmployeeStore × Response :=
  match r.body with
  | none => (es, httpError "Invalid request payload" StatusBadRequest)
  | some updatedEmployee =>
    match Atoi (getValue r.vars "id") with
    | none => (es, httpError "Invalid employee ID" StatusBadRequest)
    | some id =>
      match es.lookup id with
      | none => (es, httpError "Employee not found" StatusNotFound)
      | some _ => (es.insert id updatedEmployee, ⟨StatusOK, Body.employee updatedEmployee⟩)

/-- The handler `DeleteEmployee`. -/
def DeleteEmployee (es : EmployeeStore) (r : Request) : EmployeeStore × Response :=
  match Atoi (getValue r.vars "id") with
  | none => (es, httpError "Invalid employee ID" StatusBadRequest)
  | some id =>
    match es.lookup id with
    | none => (es, httpError "Employee not found" StatusNotFound)
    | some _ =>
      (es.erase id, ⟨StatusOK, Body.text ("Employee with ID " ++ toString id ++ " deleted")⟩)

/-! ## Sample data -/

/-- The record used by the repository's handler tests. -/
def johnDoe : Employee := ⟨1, "John Doe", "Software Engineer", 50000⟩

/-- A second record, carrying an identifier of its own. -/
def janeRoe : Employee := ⟨77, "Jane Roe", "Accountant", 42000⟩

/-- A `POST /employee` request whose body decodes to `e`. -/
def postRequest (e : Employee) : Request := ⟨[], [], some e⟩

/-- A request routed through `/employee/{id}` with the given path segment and
decoded body. -/
def pathRequest (id : String) (body : Option Employee) : Request :=
  ⟨[], [("id", id)], body⟩

/-- A `GET /employees` request with the given raw `page` and `limit` values. -/
def listRequest (page limit : String) : Request :=
  ⟨[("page", page), ("limit", limit)], [], none⟩

/-- A store holding `janeRoe` (whose `ID` field is 77) under key 1. -/
def mismatchedStore : EmployeeStore := NewEmployeeStore.insert 1 janeRoe

/-- The store of the handler tests: `johnDoe` under key 1. -/
def johnStore : EmployeeStore := NewEmployeeStore.insert 1 johnDoe

/-- The store after three creates on the empty store, with bodies `e₁`, `e₂`, `e₃`. -/
def afterThreeCreates (e₁ e₂ e₃ : Employee) : EmployeeStore :=
  (CreateEmployee (CreateEmployee (CreateEmployee NewEmployeeStore (postRequest e₁)).1
    (postRequest e₂)).1 (postRequest e₃)).1

/-! ## Sequences of requests -/

/-- The five routes that `main` registers on the router, one per handler. -/
inductive Route where
  | list
  | create
  | get
  | update
  | delete
  deriving DecidableEq, Repr

/-- One request as the router sees it: the route it matches and the request. -/
structure Call where
  route : Route
  request : Request
  deriving DecidableEq, Repr

/-- The dispatch set up in `main`: the handler registered for the route serves the
request. -/
def serve (es : EmployeeStore) (c : Call) : EmployeeStore × Response :=
  match c.route with
  | Route.list => ListEmployees es c.request
  | Route.create => CreateEmployee es c.request
  | Route.get => GetEmployee es c.request
  | Route.update => UpdateEmployee es c.request
  | Route.delete => DeleteEmployee es c.request

/-- The store after serving the calls one after the other, starting from `es`. -/
def run (es : EmployeeStore) : List Call → EmployeeStore
  | [] => es
  | c :: cs => run (serve es c).1 cs

/-- Every call of the sequence satisfies `P` at the store it is served on. -/
def alongRun (P : EmployeeStore → Call → Prop) : EmployeeStore → List Call → Prop
  | _, [] => True
  | es, c :: cs => P es c ∧ alongRun P (serve es c).1 cs

/-- If the call is an update that succeeds, the `ID` of its body is its path
identifier. -/
def alignedUpdate (es : EmployeeStore) (c : Call) : Prop :=
  c.route = Route.update → (serve es c).2.status = 200 →
    c.request.body.map Employee.ID = Atoi (getValue c.request.vars "id")

/-- The call is not a delete that succeeds. -/
def noDelete (es : EmployeeStore) (c : Call) : Prop :=
  c.route = Route.delete → (serve es c).2.status ≠ 200

instance decidableAlignedUpdate (es : EmployeeStore) (c : Call) :
    Decidable (alignedUpdate es c) :=
  inferInstanceAs (Decidable (c.route = Route.update → (serve es c).2.status = 200 →
    c.request.body.map Employee.ID = Atoi (getValue c.request.vars "id")))

instance decidableNoDelete (es : EmployeeStore) (c : Call) : Decidable (noDelete es c) :=
  inferInstanceAs (Decidable (c.route = Route.delete → (serve es c).2.status ≠ 200))

instance decidableAlongRun (P : EmployeeStore → Call → Prop)
    [hP : ∀ es c, Decidable (P es c)] :
    ∀ (es : EmployeeStore) (calls : List Call), Decidable (alongRun P es calls)
  | _, [] => isTrue trivial
  | es, c :: cs =>
    match hP es c, decidableAlongRun P (serve es c).1 cs with
    | isTrue h₁, isTrue h₂ => isTrue ⟨h₁, h₂⟩
    | isFalse h₁, _ => isFalse (fun h => h₁ h.1)
    | _, isFalse h₂ => isFalse (fun h => h₂ h.2)

/-- Every key of the mapping equals the `ID` field of the record stored under it. -/
def KeysMatch (es : EmployeeStore) : Prop :=
  ∀ (k : Int) (e : Employee), es.lookup k = some e → e.ID = k

/-- The key set of the mapping is exactly `1, ..., len`. -/
def Contiguous (es : EmployeeStore) : Prop :=
  ∀ k : Int, k ∈ es ↔ 1 ≤ k ∧ k ≤ (len es : Int)

/-- The array carried by a response, empty when the response carries none. -/
def records (resp : Response) : List Employee :=
  match resp.body with
  | Body.employees l => l
  | _ => []

/-- The store built at the start of `TestListEmployeesByPagination`, for `n` records:
record `i` is stored under key `i`, with `Salary` standing for `float64(i * 1000)`. -/
def seedStore : Nat → EmployeeStore
  | 0 => NewEmployeeStore
  | n + 1 =>
    (seedStore n).insert ((n : Int) + 1)
      ⟨(n : Int) + 1, "Employee" ++ toString (n + 1), "Position" ++ toString (n + 1),
        (n + 1) * 1000⟩

/-- The store after three creates on the empty store and the delete of id 1. -/
def afterDeletingFirst (e₁ e₂ e₃ : Employee) : EmployeeStore :=
  (DeleteEmployee (afterThreeCreates e₁ e₂ e₃) (pathRequest "1" none)).1

/-- Three creates, then the delete of id 1: a sequence of creates and deletes. -/
def collidingCalls : List Call :=
  [⟨Route.create, postRequest johnDoe⟩, ⟨Route.create, postRequest janeRoe⟩,
    ⟨Route.create, postRequest johnDoe⟩, ⟨Route.delete, pathRequest "1" none⟩]

/-- Two creates, an update of id 2 that keeps the identifier, and the delete of
id 1. -/
def alignedCalls : List Call :=
  [⟨Route.create, postRequest johnDoe⟩, ⟨Route.create, postRequest janeRoe⟩,
    ⟨Route.update, pathRequest "2" (some ⟨2, "Jane Roe", "Auditor", 43000⟩)⟩,
    ⟨Route.delete, pathRequest "1" none⟩]

/-- Two creates, an update of id 1 whose body carries the identifier 77, and a delete
of an identifier that is not a key. -/
def deleteFreeCalls : List Call :=
  [⟨Route.create, postRequest johnDoe⟩, ⟨Route.create, postRequest janeRoe⟩,
    ⟨Route.update, pathRequest "1" (some janeRoe)⟩, ⟨Route.delete, pathRequest "9" none⟩]

/-- The records the loop of `ListEmployees` walks over: those stored under the
candidate identifiers that are keys of the mapping, in the order of the scan. -/
def storedRecords (es : EmployeeStore) : List Employee :=
  (candidateIDs es).filterMap (fun id => es.lookup id)

instance : IsTotal Employee (fun a b => a.ID ≤ b.ID) := ⟨fun a b => le_total a.ID b.ID⟩

instance : IsTrans Employee (fun a b => a.ID ≤ b.ID) := ⟨fun _ _ _ h₁ h₂ => le_trans h₁ h₂⟩

/-! ## Lemmas on the store -/

theorem keys_insert_store (es : EmployeeStore) (k : Int) (v : Employee) :
    (es.insert k v).keys = insert k es.keys := by
  ext a
  simp [Finmap.mem_keys, Finmap.mem_insert]

theorem len_insert_of_not_mem (es : EmployeeStore) (k : Int) (v : Employee) (h : k ∉ es) :
    len (es.insert k v) = len es + 1 := by
  unfold len
  rw [keys_insert_store, Finset.card_insert_of_not_mem (by simpa [Finmap.mem_keys] using h)]

theorem len_insert_of_mem (es : EmployeeStore) (k : Int) (v : Employee) (h : k ∈ es) :
    len (es.insert k v) = len es := by
  unfold len
  rw [keys_insert_store, Finset.card_insert_of_mem (by simpa [Finmap.mem_keys] using h)]

theorem len_erase_of_mem (es : EmployeeStore) (k : Int) (h : k ∈ es) :
    len (es.erase k) = len es - 1 := by
  unfold len
  rw [Finmap.keys_erase, Finset.card_erase_of_mem (by simpa [Finmap.mem_keys] using h)]

theorem len_empty : len NewEmployeeStore = 0 := by
  simp [len, NewEmployeeStore]

/-! ## Lemmas on the listing loop -/

theorem one_le_pageParam (r : Request) : 1 ≤ pageParam r := by
  unfold pageParam
  split
  · split <;> omega
  · omega

theorem one_le_limitParam (r : Request) : 1 ≤ limitParam r := by
  unfold limitParam
  split
  · split <;> omega
  · omega

/-- The loop never lets the slice grow past `limit`. -/
theorem scan_length_le (es : EmployeeStore) (limit : Int) (ids : List Int) :
    ∀ (offset : Int) (employees : List Employee), (employees.length : Int) < limit →
      ((scan es limit ids offset employees).length : Int) ≤ limit := by
  induction ids with
  | nil => intro offset employees h; simpa [scan] using h.le
  | cons id ids ih =>
    intro offset employees h
    unfold scan
    split
    · exact ih offset employees h
    · split
      · exact ih (offset - 1) employees h
      · split
        · simp only [List.length_append, List.length_singleton]
          push_cast
          omega
        · rename_i hlt
          exact ih offset _ (by simpa using hlt)

theorem sortByID_sorted (l : List Employee) :
    (sortByID l).Sorted (fun a b => a.ID ≤ b.ID) :=
  List.sorted_insertionSort _ l

theorem sortByID_length (l : List Employee) : (sortByID l).length = l.length :=
  List.length_insertionSort _ l

theorem listPage_length_le (es : EmployeeStore) (page limit : Int) (h : 1 ≤ limit) :
    ((listPage es page limit).length : Int) ≤ limit := by
  unfold listPage
  simp only [sortByID_length]
  exact scan_length_le es limit _ _ [] (by simpa using h)

/-! ## Create -/

/-- C1: for every store and every request whose body decodes to an employee `e`,
`CreateEmployee` answers 200, assigns the identifier `len + 1` in place of the `ID`
the body carried, stores the resulting record under that key and returns exactly that
record; two creates in a row on the empty store are assigned 1 and 2. -/
theorem CreateEmployee_assigns_len_succ (es : EmployeeStore) (r r₂ : Request)
    (e e₂ : Employee) (h : r.body = some e) (h₂ : r₂.body = some e₂) :
    (CreateEmployee es r).2
        = ⟨200, Body.employee ⟨(len es : Int) + 1, e.Name, e.Position, e.Salary⟩⟩ ∧
      (CreateEmployee es r).1
        = es.insert ((len es : Int) + 1) ⟨(len es : Int) + 1, e.Name, e.Position, e.Salary⟩ ∧
      (CreateEmployee es r).1.lookup ((len es : Int) + 1)
        = some ⟨(len es : Int) + 1, e.Name, e.Position, e.Salary⟩ ∧
      (CreateEmployee NewEmployeeStore r).2
        = ⟨200, Body.employee ⟨1, e.Name, e.Position, e.Salary⟩⟩ ∧
      (CreateEmployee (CreateEmployee NewEmployeeStore r).1 r₂).2
        = ⟨200, Body.employee ⟨2, e₂.Name, e₂.Position, e₂.Salary⟩⟩ := by
  have hlen : len (Finmap.insert (1 : Int) (⟨1, e.Name, e.Position, e.Salary⟩ : Employee)
      NewEmployeeStore) = 1 := by
    rw [len_insert_of_not_mem NewEmployeeStore _ _ Finmap.not_mem_empty, len_empty]
  refine ⟨?_, ?_, ?_, ?_, ?_⟩
  · simp [CreateEmployee, h, StatusOK]
  · simp [CreateEmployee, h]
  · simp [CreateEmployee, h, Finmap.lookup_insert]
  · simp [CreateEmployee, h, StatusOK, len_empty]
  · simp [CreateEmployee, h, h₂, StatusOK, len_empty, hlen]

theorem CreateEmployee_assigns_len_succ_witness :
    ((CreateEmployee NewEmployeeStore (postRequest janeRoe)).2
        = ⟨200, Body.employee ⟨1, "Jane Roe", "Accountant", 42000⟩⟩) ∧
      ((CreateEmployee (CreateEmployee NewEmployeeStore (postRequest janeRoe)).1
          (postRequest johnDoe)).2
        = ⟨200, Body.employee ⟨2, "John Doe", "Software Engineer", 50000⟩⟩) :=
  ⟨(CreateEmployee_assigns_len_succ NewEmployeeStore (postRequest janeRoe)
      (postRequest johnDoe) janeRoe johnDoe rfl rfl).2.2.2.1,
   (CreateEmployee_assigns_len_succ NewEmployeeStore (postRequest janeRoe)
      (postRequest johnDoe) janeRoe johnDoe rfl rfl).2.2.2.2⟩

/-! ## List -/

/-- C2: for every store and every request, with `page` and `limit` as they stand
after defaulting (both at least 1), `ListEmployees` answers 200 with an array that
ascends in the `ID` field and holds at most `limit` records. -/
theorem ListEmployees_sorted_bounded (es : EmployeeStore) (r : Request) :
    1 ≤ pageParam r ∧ 1 ≤ limitParam r ∧ (ListEmployees es r).2.status = 200 ∧
      ∃ l : List Employee,
        (ListEmployees es r).2.body = Body.employees l ∧
        l.Sorted (fun a b => a.ID ≤ b.ID) ∧
        (l.length : Int) ≤ limitParam r :=
  ⟨one_le_pageParam r, one_le_limitParam r, rfl, _, rfl, sortByID_sorted _,
    listPage_length_le es _ _ (one_le_limitParam r)⟩

theorem getValue_of_absent (kvs : List (String × String)) (key : String)
    (h : ∀ kv ∈ kvs, kv.1 ≠ key) : getValue kvs key = "" := by
  have hnone : kvs.find? (fun kv => kv.1 == key) = none := by
    rw [List.find?_eq_none]
    intro kv hkv
    simpa using h kv hkv
  simp [getValue, hnone]

theorem Atoi_empty : Atoi "" = none := by decide

theorem pageParam_eq_one_of_invalid (r : Request)
    (h : Atoi (getValue r.query "page") = none ∨
      ∃ v, Atoi (getValue r.query "page") = some v ∧ v ≤ 0) : pageParam r = 1 := by
  unfold pageParam
  rcases h with h | ⟨v, h, hv⟩
  · simp [h]
  · simp [h, hv]

theorem limitParam_eq_ten_of_invalid (r : Request)
    (h : Atoi (getValue r.query "limit") = none ∨
      ∃ v, Atoi (getValue r.query "limit") = some v ∧ v ≤ 0) : limitParam r = 10 := by
  unfold limitParam
  rcases h with h | ⟨v, h, hv⟩
  · simp [h]
  · simp [h, hv]

theorem pageParam_of_valid (r : Request) (v : Int)
    (h : Atoi (getValue r.query "page") = some v) (hv : 0 < v) : pageParam r = v := by
  simp [pageParam, h, not_le.mpr hv]

theorem limitParam_of_valid (r : Request) (v : Int)
    (h : Atoi (getValue r.query "limit") = some v) (hv : 0 < v) : limitParam r = v := by
  simp [limitParam, h, not_le.mpr hv]

/-- C3: a `page` that is absent, non-numeric or not positive counts as 1 and such a
`limit` counts as 10; a valid value counts as itself; the response to `r` is the
response to any request `r'` that carries the normalised values, and when both raw
values are invalid it is the response to `page=1&limit=10`. -/
theorem ListEmployees_defaults (es : EmployeeStore) (r r' : Request)
    (hp : Atoi (getValue r'.query "page") = some (pageParam r))
    (hl : Atoi (getValue r'.query "limit") = some (limitParam r)) :
    ((∀ kv ∈ r.query, kv.1 ≠ "page") → pageParam r = 1) ∧
      ((∀ kv ∈ r.query, kv.1 ≠ "limit") → limitParam r = 10) ∧
      ((Atoi (getValue r.query "page") = none ∨
          ∃ v, Atoi (getValue r.query "page") = some v ∧ v ≤ 0) → pageParam r = 1) ∧
      ((Atoi (getValue r.query "limit") = none ∨
          ∃ v, Atoi (getValue r.query "limit") = some v ∧ v ≤ 0) → limitParam r = 10) ∧
      (∀ v, Atoi (getValue r.query "page") = some v → 0 < v → pageParam r = v) ∧
      (∀ v, Atoi (getValue r.query "limit") = some v → 0 < v → limitParam r = v) ∧
      ListEmployees es r = ListEmployees es r' ∧
      ((Atoi (getValue r.query "page") = none ∨
          ∃ v, Atoi (getValue r.query "page") = some v ∧ v ≤ 0) →
        (Atoi (getValue r.query "limit") = none ∨
          ∃ v, Atoi (getValue r.query "limit") = some v ∧ v ≤ 0) →
        ListEmployees es r = ListEmployees es (listRequest "1" "10")) := by
  have hp' : pageParam r' = pageParam r :=
    pageParam_of_valid r' _ hp (by have := one_le_pageParam r; omega)
  have hl' : limitParam r' = limitParam r :=
    limitParam_of_valid r' _ hl (by have := one_le_limitParam r; omega)
  have h1 : pageParam (listRequest "1" "10") = 1 := by decide
  have h10 : limitParam (listRequest "1" "10") = 10 := by decide
  refine ⟨?_, ?_, pageParam_eq_one_of_invalid r, limitParam_eq_ten_of_invalid r,
    pageParam_of_valid r, limitParam_of_valid r, ?_, ?_⟩
  · intro h
    exact pageParam_eq_one_of_invalid r (Or.inl (by rw [getValue_of_absent _ _ h, Atoi_empty]))
  · intro h
    exact limitParam_eq_ten_of_invalid r (Or.inl (by rw [getValue_of_absent _ _ h, Atoi_empty]))
  · simp only [ListEmployees, hp', hl']
  · intro hpi hli
    simp only [ListEmployees, pageParam_eq_one_of_invalid r hpi,
      limitParam_eq_ten_of_invalid r hli, h1, h10]

theorem ListEmployees_defaults_witness :
    pageParam (listRequest "abc" "-5") = 1 ∧ limitParam (listRequest "abc" "-5") = 10 ∧
      ListEmployees (CreateEmployee NewEmployeeStore (postRequest janeRoe)).1
          (listRequest "abc" "-5")
        = ListEmployees (CreateEmployee NewEmployeeStore (postRequest janeRoe)).1
          (listRequest "1" "10") :=
  ⟨by decide, by decide,
    (ListEmployees_defaults (CreateEmployee NewEmployeeStore (postRequest janeRoe)).1
      (listRequest "abc" "-5") (listRequest "1" "10") (by decide) (by decide)).2.2.2.2.2.2.1⟩

/-- With an offset that has not wrapped and is at least the number of candidate
identifiers, the loop collects nothing. -/
theorem scan_eq_nil_of_length_le (es : EmployeeStore) (limit : Int) (ids : List Int) :
    ∀ offset : Int, (ids.length : Int) ≤ offset → scan es limit ids offset [] = [] := by
  induction ids with
  | nil => intro offset _; rfl
  | cons id ids ih =>
    intro offset h
    have h' : (ids.length : Int) + 1 ≤ offset := by simpa using h
    unfold scan
    split
    · exact ih offset (by omega)
    · rw [if_pos (by omega)]
      exact ih (offset - 1) (by omega)

theorem candidateIDs_length (es : EmployeeStore) : (candidateIDs es).length = len es := by
  simp [candidateIDs]

theorem wrapInt_of_inRange (x : Int) (h₀ : -(2 : Int) ^ 63 ≤ x) (h₁ : x < 2 ^ 63) :
    wrapInt x = x := by
  unfold wrapInt
  rw [Int.emod_eq_of_lt (by omega) (by omega)]
  omega

/-- The out-of-range page on the inputs where the product `(page - 1) * limit` stays
inside the 64-bit range: the listing is empty, with status 200. -/
theorem ListEmployees_beyond_of_no_wrap (es : EmployeeStore) (r : Request)
    (hfit : (pageParam r - 1) * limitParam r < 2 ^ 63)
    (hbeyond : (len es : Int) ≤ (pageParam r - 1) * limitParam r) :
    ListEmployees es r = (es, ⟨200, Body.employees []⟩) := by
  have hw : wrapInt ((pageParam r - 1) * limitParam r) = (pageParam r - 1) * limitParam r :=
    wrapInt_of_inRange _ (by omega) hfit
  simp only [ListEmployees, listPage, hw, StatusOK]
  rw [scan_eq_nil_of_length_le es _ _ _ (by rw [candidateIDs_length]; exact hbeyond)]
  rfl

/-- C4 at `page=4294967297&limit=4294967296` on the store that holds one record:
both values parse and are at least 1, `(page - 1) * limit` is 2^64, far beyond the
single entry, and yet the response carries that entry, because the product wraps to
offset 0. -/
theorem ListEmployees_beyond_wraps :
    pageParam (listRequest "4294967297" "4294967296") = 4294967297 ∧
      limitParam (listRequest "4294967297" "4294967296") = 4294967296 ∧
      len (CreateEmployee NewEmployeeStore (postRequest johnDoe)).1 = 1 ∧
      (1 : Int) ≤ (4294967297 - 1) * 4294967296 ∧
      wrapInt ((4294967297 - 1) * 4294967296) = 0 ∧
      (ListEmployees (CreateEmployee NewEmployeeStore (postRequest johnDoe)).1
          (listRequest "4294967297" "4294967296")).2
        = ⟨200, Body.employees [johnDoe]⟩ := by
  decide

/-! ## Get, update, delete -/

/-- C5: when the path identifier parses to `id` and `e` is the record stored under
key `id`, `GetEmployee` answers 200 with exactly `e`, whatever `e.ID` is, and the
store is unchanged. -/
theorem GetEmployee_found (es : EmployeeStore) (r : Request) (id : Int) (e : Employee)
    (hid : Atoi (getValue r.vars "id") = some id) (he : es.lookup id = some e) :
    (GetEmployee es r).2 = ⟨200, Body.employee e⟩ ∧ (GetEmployee es r).1 = es := by
  simp [GetEmployee, hid, he, StatusOK]

theorem GetEmployee_found_witness :
    (GetEmployee mismatchedStore (pathRequest "1" none)).2
        = ⟨200, Body.employee ⟨77, "Jane Roe", "Accountant", 42000⟩⟩ ∧
      (GetEmployee mismatchedStore (pathRequest "1" none)).1 = mismatchedStore :=
  GetEmployee_found mismatchedStore (pathRequest "1" none) 1 janeRoe (by decide) (by decide)

/-- C6: when the path identifier parses to a key `id` of the mapping and the body
decodes to `b`, `UpdateEmployee` answers 200 with `b`, and afterwards the record under
key `id` is `b` itself, every field of it, `b.ID` included even when it differs from
`id`; the store is the old one with `b` put under `id`. -/
theorem UpdateEmployee_replaces (es : EmployeeStore) (r : Request) (id : Int) (b : Employee)
    (hid : Atoi (getValue r.vars "id") = some id) (hmem : id ∈ es)
    (hb : r.body = some b) :
    (UpdateEmployee es r).2 = ⟨200, Body.employee b⟩ ∧
      (UpdateEmployee es r).1.lookup id = some b ∧
      (UpdateEmployee es r).1 = es.insert id b := by
  obtain ⟨old, hold⟩ := Finmap.mem_iff.mp hmem
  simp [UpdateEmployee, hid, hb, hold, StatusOK, Finmap.lookup_insert]

theorem UpdateEmployee_replaces_witness :
    (UpdateEmployee johnStore (pathRequest "1" (some janeRoe))).2
        = ⟨200, Body.employee janeRoe⟩ ∧
      (UpdateEmployee johnStore (pathRequest "1" (some janeRoe))).1.lookup 1
        = some ⟨77, "Jane Roe", "Accountant", 42000⟩ ∧
      (UpdateEmployee johnStore (pathRequest "1" (some janeRoe))).1
        = johnStore.insert 1 janeRoe :=
  UpdateEmployee_replaces johnStore (pathRequest "1" (some janeRoe)) 1 janeRoe
    (by decide) (by decide) rfl

/-- C7: when the path identifier parses to a key `n` of the mapping, `DeleteEmployee`
answers 200 with the text "Employee with ID n deleted", `n` written in decimal, and
on the store it leaves, `GetEmployee` for `n` answers 404 "Employee not found". -/
theorem DeleteEmployee_then_get (es : EmployeeStore) (r r' : Request) (n : Int)
    (hid : Atoi (getValue r.vars "id") = some n) (hmem : n ∈ es)
    (hid' : Atoi (getValue r'.vars "id") = some n) :
    (DeleteEmployee es r).2
        = ⟨200, Body.text ("Employee with ID " ++ toString n ++ " deleted")⟩ ∧
      (DeleteEmployee es r).1 = es.erase n ∧
      (GetEmployee (DeleteEmployee es r).1 r').2 = ⟨404, Body.error "Employee not found"⟩ := by
  obtain ⟨old, hold⟩ := Finmap.mem_iff.mp hmem
  simp [DeleteEmployee, GetEmployee, hid, hid', hold, StatusOK, StatusNotFound, httpError,
    Finmap.lookup_erase]

theorem DeleteEmployee_then_get_witness :
    (DeleteEmployee johnStore (pathRequest "1" none)).2
        = ⟨200, Body.text "Employee with ID 1 deleted"⟩ ∧
      (DeleteEmployee johnStore (pathRequest "1" none)).1 = johnStore.erase 1 ∧
      (GetEmployee (DeleteEmployee johnStore (pathRequest "1" none)).1
          (pathRequest "1" none)).2 = ⟨404, Body.error "Employee not found"⟩ :=
  DeleteEmployee_then_get johnStore (pathRequest "1" none) (pathRequest "1" none) 1
    (by decide) (by decide) (by decide)

/-! ## Error responses -/

/-- C8 fails for `UpdateEmployee` when the body does not decode: with the path segment
"abc", which does not parse, the answer is 400 "Invalid request payload", not
400 "Invalid employee ID". -/
theorem UpdateEmployee_bad_id_bad_body :
    Atoi (getValue (pathRequest "abc" none).vars "id") = none ∧
      (UpdateEmployee johnStore (pathRequest "abc" none)).2
        = ⟨400, Body.error "Invalid request payload"⟩ ∧
      (UpdateEmployee johnStore (pathRequest "abc" none)).2
        ≠ ⟨400, Body.error "Invalid employee ID"⟩ := by
  decide

/-- C8, amended: when the path identifier does not parse as an integer, `GetEmployee`
and `DeleteEmployee` answer 400 "Invalid employee ID", and so does `UpdateEmployee`
for every request whose body decodes. -/
theorem invalid_id_responses (es : EmployeeStore) (r u : Request) (b : Employee)
    (hid : Atoi (getValue r.vars "id") = none)
    (huid : Atoi (getValue u.vars "id") = none) (hub : u.body = some b) :
    (GetEmployee es r).2 = ⟨400, Body.error "Invalid employee ID"⟩ ∧
      (DeleteEmployee es r).2 = ⟨400, Body.error "Invalid employee ID"⟩ ∧
      (UpdateEmployee es u).2 = ⟨400, Body.error "Invalid employee ID"⟩ := by
  simp [GetEmployee, DeleteEmployee, UpdateEmployee, hid, huid, hub, httpError,
    StatusBadRequest]

theorem invalid_id_responses_witness :
    (GetEmployee johnStore (pathRequest "abc" none)).2
        = ⟨400, Body.error "Invalid employee ID"⟩ ∧
      (DeleteEmployee johnStore (pathRequest "abc" none)).2
        = ⟨400, Body.error "Invalid employee ID"⟩ ∧
      (UpdateEmployee johnStore (pathRequest "1x" (some janeRoe))).2
        = ⟨400, Body.error "Invalid employee ID"⟩ :=
  invalid_id_responses johnStore (pathRequest "abc" none) (pathRequest "1x" (some janeRoe))
    janeRoe (by decide) (by decide) rfl

/-- C9 fails for `UpdateEmployee` when the body does not decode: with the path segment
"5", an integer that is not a key, the answer is 400 "Invalid request payload", not
404 "Employee not found". -/
theorem UpdateEmployee_absent_id_bad_body :
    Atoi (getValue (pathRequest "5" none).vars "id") = some 5 ∧
      (5 : Int) ∉ johnStore ∧
      (UpdateEmployee johnStore (pathRequest "5" none)).2
        = ⟨400, Body.error "Invalid request payload"⟩ ∧
      (UpdateEmployee johnStore (pathRequest "5" none)).2
        ≠ ⟨404, Body.error "Employee not found"⟩ := by
  decide

/-- C9, amended: when the path identifier parses to an integer that is not a key of
the mapping, `GetEmployee` and `DeleteEmployee` answer 404 "Employee not found", and
so does `UpdateEmployee` for every request whose body decodes. -/
theorem absent_id_responses (es : EmployeeStore) (r u : Request) (id uid : Int)
    (b : Employee)
    (hid : Atoi (getValue r.vars "id") = some id) (hmem : id ∉ es)
    (huid : Atoi (getValue u.vars "id") = some uid) (humem : uid ∉ es)
    (hub : u.body = some b) :
    (GetEmployee es r).2 = ⟨404, Body.error "Employee not found"⟩ ∧
      (DeleteEmployee es r).2 = ⟨404, Body.error "Employee not found"⟩ ∧
      (UpdateEmployee es u).2 = ⟨404, Body.error "Employee not found"⟩ := by
  have h₁ : es.lookup id = none := Finmap.lookup_eq_none.mpr hmem
  have h₂ : es.lookup uid = none := Finmap.lookup_eq_none.mpr humem
  simp [GetEmployee, DeleteEmployee, UpdateEmployee, hid, huid, hub, h₁, h₂, httpError,
    StatusNotFound]

theorem absent_id_responses_witness :
    (GetEmployee johnStore (pathRequest "5" none)).2
        = ⟨404, Body.error "Employee not found"⟩ ∧
      (DeleteEmployee johnStore (pathRequest "5" none)).2
        = ⟨404, Body.error "Employee not found"⟩ ∧
      (UpdateEmployee johnStore (pathRequest "-2" (some janeRoe))).2
        = ⟨404, Body.error "Employee not found"⟩ :=
  absent_id_responses johnStore (pathRequest "5" none) (pathRequest "-2" (some janeRoe))
    5 (-2) janeRoe (by decide) (by decide) (by decide) (by decide) rfl

/-! ## Create, delete, create -/

theorem afterThreeCreates_eq (e₁ e₂ e₃ : Employee) :
    afterThreeCreates e₁ e₂ e₃
      = ((NewEmployeeStore.insert 1 ⟨1, e₁.Name, e₁.Position, e₁.Salary⟩).insert 2
          ⟨2, e₂.Name, e₂.Position, e₂.Salary⟩).insert 3
          ⟨3, e₃.Name, e₃.Position, e₃.Salary⟩ := by
  have h₁ : len (Finmap.insert (1 : Int) (⟨1, e₁.Name, e₁.Position, e₁.Salary⟩ : Employee)
      NewEmployeeStore) = 1 := by
    rw [len_insert_of_not_mem NewEmployeeStore _ _ Finmap.not_mem_empty, len_empty]
  have h₂ : len (Finmap.insert (2 : Int) (⟨2, e₂.Name, e₂.Position, e₂.Salary⟩ : Employee)
      (Finmap.insert (1 : Int) (⟨1, e₁.Name, e₁.Position, e₁.Salary⟩ : Employee)
        NewEmployeeStore)) = 2 := by
    rw [len_insert_of_not_mem _ _ _ (by simp [Finmap.mem_insert, NewEmployeeStore, Finmap.not_mem_empty]), h₁]
  simp [afterThreeCreates, CreateEmployee, postRequest, len_empty, h₁, h₂]

theorem len_afterThreeCreates (e₁ e₂ e₃ : Employee) : len (afterThreeCreates e₁ e₂ e₃) = 3 := by
  rw [afterThreeCreates_eq,
    len_insert_of_not_mem _ _ _ (by simp [Finmap.mem_insert, NewEmployeeStore, Finmap.not_mem_empty]),
    len_insert_of_not_mem _ _ _ (by simp [Finmap.mem_insert, NewEmployeeStore, Finmap.not_mem_empty]),
    len_insert_of_not_mem NewEmployeeStore _ _ Finmap.not_mem_empty, len_empty]

theorem two_mem_afterThreeCreates (e₁ e₂ e₃ : Employee) :
    (2 : Int) ∈ afterThreeCreates e₁ e₂ e₃ := by
  rw [afterThreeCreates_eq]
  simp [Finmap.mem_insert]

/-- C10 as stated fails: after three creates on the empty store and the delete of
id 2 the mapping has 2 entries, not 3, and the next create is assigned 3, not 4. -/
theorem create_after_delete_not_four :
    (CreateEmployee NewEmployeeStore (postRequest johnDoe)).2
        = ⟨200, Body.employee ⟨1, "John Doe", "Software Engineer", 50000⟩⟩ ∧
      (DeleteEmployee (afterThreeCreates johnDoe janeRoe johnDoe) (pathRequest "2" none)).2
        = ⟨200, Body.text "Employee with ID 2 deleted"⟩ ∧
      len (DeleteEmployee (afterThreeCreates johnDoe janeRoe johnDoe)
        (pathRequest "2" none)).1 = 2 ∧
      len (DeleteEmployee (afterThreeCreates johnDoe janeRoe johnDoe)
        (pathRequest "2" none)).1 ≠ 3 ∧
      (CreateEmployee (DeleteEmployee (afterThreeCreates johnDoe janeRoe johnDoe)
        (pathRequest "2" none)).1 (postRequest janeRoe)).2
        = ⟨200, Body.employee ⟨3, "Jane Roe", "Accountant", 42000⟩⟩ ∧
      (CreateEmployee (DeleteEmployee (afterThreeCreates johnDoe janeRoe johnDoe)
        (pathRequest "2" none)).1 (postRequest janeRoe)).2
        ≠ ⟨200, Body.employee ⟨4, "Jane Roe", "Accountant", 42000⟩⟩ := by
  decide

/-- C10, amended: starting from the empty store, three creates are assigned 1, 2 and
3; after the delete of id 2 succeeds the mapping has 2 entries, and the next create
is assigned identifier 3. -/
theorem create_after_delete_assigns_three (e₁ e₂ e₃ e₄ : Employee) (d c : Request)
    (hd : Atoi (getValue d.vars "id") = some 2) (hc : c.body = some e₄) :
    (CreateEmployee NewEmployeeStore (postRequest e₁)).2
        = ⟨200, Body.employee ⟨1, e₁.Name, e₁.Position, e₁.Salary⟩⟩ ∧
      (CreateEmployee (CreateEmployee NewEmployeeStore (postRequest e₁)).1
          (postRequest e₂)).2
        = ⟨200, Body.employee ⟨2, e₂.Name, e₂.Position, e₂.Salary⟩⟩ ∧
      (CreateEmployee (CreateEmployee (CreateEmployee NewEmployeeStore (postRequest e₁)).1
          (postRequest e₂)).1 (postRequest e₃)).2
        = ⟨200, Body.employee ⟨3, e₃.Name, e₃.Position, e₃.Salary⟩⟩ ∧
      (DeleteEmployee (afterThreeCreates e₁ e₂ e₃) d).2
        = ⟨200, Body.text "Employee with ID 2 deleted"⟩ ∧
      len (DeleteEmployee (afterThreeCreates e₁ e₂ e₃) d).1 = 2 ∧
      (CreateEmployee (DeleteEmployee (afterThreeCreates e₁ e₂ e₃) d).1 c).2
        = ⟨200, Body.employee ⟨3, e₄.Name, e₄.Position, e₄.Salary⟩⟩ := by
  have h₁ : len (Finmap.insert (1 : Int) (⟨1, e₁.Name, e₁.Position, e₁.Salary⟩ : Employee)
      NewEmployeeStore) = 1 := by
    rw [len_insert_of_not_mem NewEmployeeStore _ _ Finmap.not_mem_empty, len_empty]
  have h₂ : len (Finmap.insert (2 : Int) (⟨2, e₂.Name, e₂.Position, e₂.Salary⟩ : Employee)
      (Finmap.insert (1 : Int) (⟨1, e₁.Name, e₁.Position, e₁.Salary⟩ : Employee)
        NewEmployeeStore)) = 2 := by
    rw [len_insert_of_not_mem _ _ _ (by simp [Finmap.mem_insert, NewEmployeeStore, Finmap.not_mem_empty]), h₁]
  have hmem := two_mem_afterThreeCreates e₁ e₂ e₃
  obtain ⟨old, hold⟩ := Finmap.mem_iff.mp hmem
  have hdel : DeleteEmployee (afterThreeCreates e₁ e₂ e₃) d
      = ((afterThreeCreates e₁ e₂ e₃).erase 2,
          ⟨200, Body.text "Employee with ID 2 deleted"⟩) := by
    simp [DeleteEmployee, hd, hold, StatusOK]
    decide
  have hlen : len ((afterThreeCreates e₁ e₂ e₃).erase 2) = 2 := by
    rw [len_erase_of_mem _ _ hmem, len_afterThreeCreates]
  refine ⟨?_, ?_, ?_, ?_, ?_, ?_⟩
  · simp [CreateEmployee, postRequest, StatusOK, len_empty]
  · simp [CreateEmployee, postRequest, StatusOK, len_empty, h₁]
  · simp [CreateEmployee, postRequest, StatusOK, len_empty, h₁, h₂]
  · rw [hdel]
  · rw [hdel]; exact hlen
  · rw [hdel]
    simp [CreateEmployee, hc, StatusOK, hlen]

theorem create_after_delete_assigns_three_witness :
    len (DeleteEmployee (afterThreeCreates johnDoe janeRoe johnDoe)
        (pathRequest "2" none)).1 = 2 ∧
      (CreateEmployee (DeleteEmployee (afterThreeCreates johnDoe janeRoe johnDoe)
        (pathRequest "2" none)).1 (postRequest janeRoe)).2
        = ⟨200, Body.employee ⟨3, "Jane Roe", "Accountant", 42000⟩⟩ :=
  ⟨(create_after_delete_assigns_three johnDoe janeRoe johnDoe janeRoe (pathRequest "2" none)
      (postRequest janeRoe) (by decide) rfl).2.2.2.2.1,
   (create_after_delete_assigns_three johnDoe janeRoe johnDoe janeRoe (pathRequest "2" none)
      (postRequest janeRoe) (by decide) rfl).2.2.2.2.2⟩

/-! ## Errors and frame -/

theorem CreateEmployee_error_store (es : EmployeeStore) (r : Request)
    (h : (CreateEmployee es r).2.status ≠ 200) : (CreateEmployee es r).1 = es := by
  cases hb : r.body with
  | none => simp [CreateEmployee, hb]
  | some e => simp [CreateEmployee, hb, StatusOK] at h

theorem UpdateEmployee_error_store (es : EmployeeStore) (r : Request)
    (h : (UpdateEmployee es r).2.status ≠ 200) : (UpdateEmployee es r).1 = es := by
  cases hb : r.body with
  | none => simp [UpdateEmployee, hb]
  | some b =>
    cases hid : Atoi (getValue r.vars "id") with
    | none => simp [UpdateEmployee, hb, hid]
    | some id =>
      cases hl : es.lookup id with
      | none => simp [UpdateEmployee, hb, hid, hl]
      | some old => simp [UpdateEmployee, hb, hid, hl, StatusOK] at h

theorem DeleteEmployee_error_store (es : EmployeeStore) (r : Request)
    (h : (DeleteEmployee es r).2.status ≠ 200) : (DeleteEmployee es r).1 = es := by
  cases hid : Atoi (getValue r.vars "id") with
  | none => simp [DeleteEmployee, hid]
  | some id =>
    cases hl : es.lookup id with
    | none => simp [DeleteEmployee, hid, hl]
    | some old => simp [DeleteEmployee, hid, hl, StatusOK] at h

theorem ListEmployees_store (es : EmployeeStore) (r : Request) :
    (ListEmployees es r).1 = es := rfl

theorem GetEmployee_store (es : EmployeeStore) (r : Request) : (GetEmployee es r).1 = es := by
  unfold GetEmployee
  split
  · rfl
  · split <;> rfl

/-- C11: whenever the create, update or delete handler answers 400 or 404, the
mapping after the call is the mapping before it. -/
theorem error_leaves_store (es : EmployeeStore) (c : Call)
    (hroute : c.route = Route.create ∨ c.route = Route.update ∨ c.route = Route.delete)
    (herr : (serve es c).2.status = 400 ∨ (serve es c).2.status = 404) :
    (serve es c).1 = es ∧
      (c.route = Route.create → (CreateEmployee es c.request).1 = es) ∧
      (c.route = Route.update → (UpdateEmployee es c.request).1 = es) ∧
      (c.route = Route.delete → (DeleteEmployee es c.request).1 = es) := by
  have hne : (serve es c).2.status ≠ 200 := by
    rcases herr with h | h <;> rw [h] <;> decide
  obtain ⟨route, r⟩ := c
  rcases hroute with h | h | h <;> simp only at h <;> subst h <;> simp only [serve] at hne ⊢
  · exact ⟨CreateEmployee_error_store es r hne,
      fun _ => CreateEmployee_error_store es r hne, by simp, by simp⟩
  · exact ⟨UpdateEmployee_error_store es r hne, by simp,
      fun _ => UpdateEmployee_error_store es r hne, by simp⟩
  · exact ⟨DeleteEmployee_error_store es r hne, by simp, by simp,
      fun _ => DeleteEmployee_error_store es r hne⟩

theorem error_leaves_store_witness :
    (serve johnStore ⟨Route.update, pathRequest "5" (some janeRoe)⟩).2.status = 404 ∧
      (serve johnStore ⟨Route.update, pathRequest "5" (some janeRoe)⟩).1 = johnStore :=
  ⟨by decide,
    (error_leaves_store johnStore ⟨Route.update, pathRequest "5" (some janeRoe)⟩
      (Or.inr (Or.inl rfl)) (Or.inr (by decide))).1⟩

/-- C17: when the body does not decode, `UpdateEmployee` answers 400 "Invalid request
payload" whatever the path identifier is, and leaves the store as it was; so its
answer is then neither "Invalid employee ID" nor "Employee not found", which are
produced only for a body that decodes. -/
theorem UpdateEmployee_decodes_first (es : EmployeeStore) (r : Request)
    (h : r.body = none) :
    UpdateEmployee es r = (es, ⟨400, Body.error "Invalid request payload"⟩) ∧
      (UpdateEmployee es r).2.body ≠ Body.error "Invalid employee ID" ∧
      (UpdateEmployee es r).2.body ≠ Body.error "Employee not found" ∧
      (∀ u : Request, ((UpdateEmployee es u).2.body = Body.error "Invalid employee ID" ∨
          (UpdateEmployee es u).2.body = Body.error "Employee not found") →
        ∃ b, u.body = some b) := by
  have hr : UpdateEmployee es r = (es, ⟨400, Body.error "Invalid request payload"⟩) := by
    simp [UpdateEmployee, h, httpError, StatusBadRequest]
  refine ⟨hr, ?_, ?_, ?_⟩
  · rw [hr]; simp
  · rw [hr]; simp
  · intro u hu
    cases hb : u.body with
    | some b => exact ⟨b, rfl⟩
    | none =>
      have hu' : (UpdateEmployee es u).2.body = Body.error "Invalid request payload" := by
        simp [UpdateEmployee, hb, httpError]
      rw [hu'] at hu
      rcases hu with hu | hu <;> exact absurd hu (by decide)

theorem UpdateEmployee_decodes_first_witness :
    UpdateEmployee johnStore (pathRequest "abc" none)
        = (johnStore, ⟨400, Body.error "Invalid request payload"⟩) ∧
      UpdateEmployee johnStore (pathRequest "5" none)
        = (johnStore, ⟨400, Body.error "Invalid request payload"⟩) ∧
      UpdateEmployee johnStore (pathRequest "1" none)
        = (johnStore, ⟨400, Body.error "Invalid request payload"⟩) :=
  ⟨(UpdateEmployee_decodes_first johnStore (pathRequest "abc" none) rfl).1,
   (UpdateEmployee_decodes_first johnStore (pathRequest "5" none) rfl).1,
   (UpdateEmployee_decodes_first johnStore (pathRequest "1" none) rfl).1⟩

/-- C19: `ListEmployees` and `GetEmployee` leave the mapping unchanged; the other three
handlers leave the entry at every key other than their target unchanged, the target
being `len + 1` for create and the parsed path identifier for update and delete. -/
theorem handlers_frame (es : EmployeeStore) (r : Request) :
    (ListEmployees es r).1 = es ∧ (GetEmployee es r).1 = es ∧
      (∀ k : Int, k ≠ (len es : Int) + 1 →
        (CreateEmployee es r).1.lookup k = es.lookup k) ∧
      (∀ k : Int, Atoi (getValue r.vars "id") ≠ some k →
        (UpdateEmployee es r).1.lookup k = es.lookup k) ∧
      (∀ k : Int, Atoi (getValue r.vars "id") ≠ some k →
        (DeleteEmployee es r).1.lookup k = es.lookup k) := by
  refine ⟨rfl, GetEmployee_store es r, ?_, ?_, ?_⟩
  · intro k hk
    cases hb : r.body with
    | none => simp [CreateEmployee, hb]
    | some e => simp [CreateEmployee, hb, Finmap.lookup_insert_of_ne es hk]
  · intro k hk
    cases hb : r.body with
    | none => simp [UpdateEmployee, hb]
    | some b =>
      cases hid : Atoi (getValue r.vars "id") with
      | none => simp [UpdateEmployee, hb, hid]
      | some id =>
        cases hl : es.lookup id with
        | none => simp [UpdateEmployee, hb, hid, hl]
        | some old =>
          have hne : k ≠ id := fun hki => hk (by rw [hid, hki])
          simp [UpdateEmployee, hb, hid, hl, Finmap.lookup_insert_of_ne es hne]
  · intro k hk
    cases hid : Atoi (getValue r.vars "id") with
    | none => simp [DeleteEmployee, hid]
    | some id =>
      cases hl : es.lookup id with
      | none => simp [DeleteEmployee, hid, hl]
      | some old =>
        have hne : k ≠ id := fun hki => hk (by rw [hid, hki])
        simp [DeleteEmployee, hid, hl, Finmap.lookup_erase_ne hne]

theorem handlers_frame_witness :
    (UpdateEmployee (afterThreeCreates johnDoe janeRoe johnDoe)
        (pathRequest "2" (some johnDoe))).1.lookup 3
      = (afterThreeCreates johnDoe janeRoe johnDoe).lookup 3 :=
  (handlers_frame (afterThreeCreates johnDoe janeRoe johnDoe)
    (pathRequest "2" (some johnDoe))).2.2.2.1 3 (by decide)

/-! ## The listing loop as a window on the stored records -/

/-- The loop skips `offset` records and then collects until the slice holds `limit`
of them. -/
theorem scan_eq_take_drop (es : EmployeeStore) (limit : Int) (ids : List Int) :
    ∀ (offset : Int) (acc : List Employee), (acc.length : Int) < limit →
      scan es limit ids offset acc
        = acc ++ ((ids.filterMap (fun id => es.lookup id)).drop offset.toNat).take
            (limit.toNat - acc.length) := by
  induction ids with
  | nil => intro offset acc _; simp [scan]
  | cons id ids ih =>
    intro offset acc h
    cases hl : es.lookup id with
    | none =>
      rw [scan]
      simp only [hl, List.filterMap_cons]
      exact ih offset acc h
    | some e =>
      rw [scan]
      simp only [hl, List.filterMap_cons]
      by_cases ho : offset > 0
      · rw [if_pos ho, ih (offset - 1) acc h]
        have hoff : offset.toNat = (offset - 1).toNat + 1 := by omega
        rw [hoff, List.drop_succ_cons]
      · rw [if_neg ho]
        have h0 : offset.toNat = 0 := by omega
        rw [h0, List.drop_zero]
        by_cases hge : ((acc ++ [e]).length : Int) ≥ limit
        · rw [if_pos hge]
          have hlen : ((acc.length : Int) + 1) ≥ limit := by simpa using hge
          have hone : limit.toNat - acc.length = 1 := by omega
          rw [hone]
          simp
        · rw [if_neg hge]
          have hlen : ((acc.length : Int) + 1) < limit := by simpa using hge
          rw [ih offset (acc ++ [e]) (by simpa using hlen), h0, List.drop_zero]
          have hsucc : limit.toNat - acc.length = (limit.toNat - (acc ++ [e]).length) + 1 := by
            simp only [List.length_append, List.length_singleton]
            omega
          rw [hsucc, List.take_succ_cons]
          simp

/-- Every record the loop collects is stored under one of the identifiers it walks. -/
theorem mem_scan (es : EmployeeStore) (limit : Int) (ids : List Int) :
    ∀ (offset : Int) (acc : List Employee) (e : Employee),
      e ∈ scan es limit ids offset acc → e ∈ acc ∨ ∃ k ∈ ids, es.lookup k = some e := by
  induction ids with
  | nil => intro offset acc e h; exact Or.inl (by simpa [scan] using h)
  | cons id ids ih =>
    intro offset acc e h
    have lift : (e ∈ acc ∨ ∃ k ∈ ids, es.lookup k = some e) →
        e ∈ acc ∨ ∃ k ∈ id :: ids, es.lookup k = some e := by
      rintro (h | ⟨k, hk, hl⟩)
      · exact Or.inl h
      · exact Or.inr ⟨k, List.mem_cons_of_mem _ hk, hl⟩
    cases hl : es.lookup id with
    | none =>
      rw [scan] at h
      simp only [hl] at h
      exact lift (ih offset acc e h)
    | some x =>
      have here : e ∈ acc ++ [x] → e ∈ acc ∨ ∃ k ∈ id :: ids, es.lookup k = some e := by
        intro hm
        rcases List.mem_append.mp hm with hm | hm
        · exact Or.inl hm
        · exact Or.inr ⟨id, List.mem_cons_self _ _, by rw [hl, List.mem_singleton.mp hm]⟩
      rw [scan] at h
      simp only [hl] at h
      by_cases ho : offset > 0
      · rw [if_pos ho] at h
        exact lift (ih (offset - 1) acc e h)
      · rw [if_neg ho] at h
        by_cases hge : ((acc ++ [x]).length : Int) ≥ limit
        · rw [if_pos hge] at h
          exact here h
        · rw [if_neg hge] at h
          rcases ih offset (acc ++ [x]) e h with hm | ⟨k, hk, hlk⟩
          · exact here hm
          · exact Or.inr ⟨k, List.mem_cons_of_mem _ hk, hlk⟩

/-- The loop reads the mapping only at the identifiers it walks. -/
theorem scan_congr (es es' : EmployeeStore) (limit : Int) (ids : List Int)
    (h : ∀ id ∈ ids, es'.lookup id = es.lookup id) :
    ∀ (offset : Int) (acc : List Employee),
      scan es' limit ids offset acc = scan es limit ids offset acc := by
  induction ids with
  | nil => intro offset acc; simp [scan]
  | cons id ids ih =>
    intro offset acc
    have hid : es'.lookup id = es.lookup id := h id (List.mem_cons_self _ _)
    have ih' := ih (fun k hk => h k (List.mem_cons_of_mem _ hk))
    rw [scan, scan, hid]
    cases es.lookup id with
    | none => exact ih' offset acc
    | some e =>
      simp only
      by_cases ho : offset > 0
      · rw [if_pos ho, if_pos ho]; exact ih' _ _
      · rw [if_neg ho, if_neg ho]
        by_cases hge : ((acc ++ [e]).length : Int) ≥ limit
        · rw [if_pos hge, if_pos hge]
        · rw [if_neg hge, if_neg hge]; exact ih' _ _

theorem mem_candidateIDs (es : EmployeeStore) (k : Int) :
    k ∈ candidateIDs es ↔ 1 ≤ k ∧ k ≤ (len es : Int) := by
  unfold candidateIDs
  simp only [List.mem_map, List.mem_range'_1]
  constructor
  · rintro ⟨m, ⟨h₁, h₂⟩, rfl⟩
    simp only [Int.ofNat_eq_coe]
    omega
  · rintro ⟨h₁, h₂⟩
    refine ⟨k.toNat, ⟨by omega, by omega⟩, ?_⟩
    simp only [Int.ofNat_eq_coe]
    omega

theorem mem_sortByID (l : List Employee) (e : Employee) : e ∈ sortByID l ↔ e ∈ l :=
  List.mem_insertionSort _

/-- Every record of a page is stored under a key between 1 and `len`. -/
theorem mem_listPage (es : EmployeeStore) (page limit : Int) (e : Employee)
    (h : e ∈ listPage es page limit) :
    ∃ k : Int, 1 ≤ k ∧ k ≤ (len es : Int) ∧ es.lookup k = some e := by
  unfold listPage at h
  rw [mem_sortByID] at h
  rcases mem_scan es limit _ _ [] e h with hm | ⟨k, hk, hl⟩
  · simp at hm
  · exact ⟨k, ((mem_candidateIDs es k).mp hk).1, ((mem_candidateIDs es k).mp hk).2, hl⟩

theorem records_ListEmployees (es : EmployeeStore) (r : Request) :
    records (ListEmployees es r).2 = listPage es (pageParam r) (limitParam r) := rfl

/-- Replacing the record under a key beyond `len` changes no page. -/
theorem listPage_insert_beyond (es : EmployeeStore) (page limit k : Int) (e' : Employee)
    (hmem : k ∈ es) (hlt : (len es : Int) < k) :
    listPage (es.insert k e') page limit = listPage es page limit := by
  have hlen : len (es.insert k e') = len es := len_insert_of_mem es k e' hmem
  unfold listPage
  have hc : candidateIDs (es.insert k e') = candidateIDs es := by
    unfold candidateIDs; rw [hlen]
  have hs := scan_congr es (es.insert k e') limit (candidateIDs es) (fun id hid =>
    Finmap.lookup_insert_of_ne es (by
      have hle := ((mem_candidateIDs es id).mp hid).2
      omega))
  simp only [hc, hs]

theorem afterDeletingFirst_eq (e₁ e₂ e₃ : Employee) :
    afterDeletingFirst e₁ e₂ e₃ = (afterThreeCreates e₁ e₂ e₃).erase 1 := by
  have hmem : (1 : Int) ∈ afterThreeCreates e₁ e₂ e₃ := by
    rw [afterThreeCreates_eq]; simp [Finmap.mem_insert]
  obtain ⟨old, hold⟩ := Finmap.mem_iff.mp hmem
  have hid : Atoi (getValue (pathRequest "1" none).vars "id") = some 1 := by decide
  simp [afterDeletingFirst, DeleteEmployee, hid, hold]

theorem len_afterDeletingFirst (e₁ e₂ e₃ : Employee) :
    len (afterDeletingFirst e₁ e₂ e₃) = 2 := by
  have hmem : (1 : Int) ∈ afterThreeCreates e₁ e₂ e₃ := by
    rw [afterThreeCreates_eq]; simp [Finmap.mem_insert]
  rw [afterDeletingFirst_eq, len_erase_of_mem _ _ hmem, len_afterThreeCreates]

theorem lookup_afterDeletingFirst (e₁ e₂ e₃ : Employee) (k : Int) :
    (afterDeletingFirst e₁ e₂ e₃).lookup k
      = if k = 1 then none
        else if k = 3 then some ⟨3, e₃.Name, e₃.Position, e₃.Salary⟩
        else if k = 2 then some ⟨2, e₂.Name, e₂.Position, e₂.Salary⟩
        else none := by
  rw [afterDeletingFirst_eq, afterThreeCreates_eq]
  by_cases h1 : k = 1
  · subst h1; simp [Finmap.lookup_erase]
  · rw [Finmap.lookup_erase_ne h1, if_neg h1]
    by_cases h3 : k = 3
    · subst h3; simp [Finmap.lookup_insert]
    · rw [Finmap.lookup_insert_of_ne _ h3, if_neg h3]
      by_cases h2 : k = 2
      · subst h2; simp [Finmap.lookup_insert]
      · rw [Finmap.lookup_insert_of_ne _ h2, if_neg h2, Finmap.lookup_insert_of_ne _ h1]
        simp [NewEmployeeStore]

/-- C15: every record `ListEmployees` returns is stored under a key between 1 and the
number of entries. Hence an entry whose key exceeds the number of entries is left out
of every page: what is stored under that key has no effect on any response, and its
record is not returned unless it is also stored under a key within range. After three
creates and the delete of id 1, the entry with key 3 is returned for no request. -/
theorem ListEmployees_within_len (es : EmployeeStore) (r : Request) :
    (∀ e ∈ records (ListEmployees es r).2,
        ∃ k : Int, 1 ≤ k ∧ k ≤ (len es : Int) ∧ es.lookup k = some e) ∧
      (∀ (k : Int) (e e' : Employee), es.lookup k = some e → (len es : Int) < k →
        (ListEmployees (es.insert k e') r).2 = (ListEmployees es r).2 ∧
        ((∀ j : Int, 1 ≤ j → j ≤ (len es : Int) → es.lookup j ≠ some e) →
          e ∉ records (ListEmployees es r).2)) ∧
      (∀ e₁ e₂ e₃ : Employee,
        (afterDeletingFirst e₁ e₂ e₃).lookup 3 = some ⟨3, e₃.Name, e₃.Position, e₃.Salary⟩ ∧
        (⟨3, e₃.Name, e₃.Position, e₃.Salary⟩ : Employee)
          ∉ records (ListEmployees (afterDeletingFirst e₁ e₂ e₃) r).2) := by
  have hin : ∀ (s : EmployeeStore), ∀ e ∈ records (ListEmployees s r).2,
      ∃ k : Int, 1 ≤ k ∧ k ≤ (len s : Int) ∧ s.lookup k = some e := by
    intro s e he
    rw [records_ListEmployees] at he
    exact mem_listPage s _ _ e he
  refine ⟨hin es, ?_, ?_⟩
  · intro k e e' hk hlt
    constructor
    · have hmem : k ∈ es := Finmap.mem_of_lookup_eq_some hk
      simp only [ListEmployees, listPage_insert_beyond es _ _ k e' hmem hlt]
    · intro hno he
      obtain ⟨j, h₁, h₂, hj⟩ := hin es e he
      exact hno j h₁ h₂ hj
  · intro e₁ e₂ e₃
    refine ⟨by rw [lookup_afterDeletingFirst]; simp, ?_⟩
    intro he
    obtain ⟨j, h₁, h₂, hj⟩ := hin _ _ he
    rw [len_afterDeletingFirst] at h₂
    rw [lookup_afterDeletingFirst] at hj
    have hj1 : j = 1 ∨ j = 2 := by omega
    rcases hj1 with rfl | rfl
    · simp at hj
    · simp at hj

theorem ListEmployees_within_len_witness :
    (⟨3, "John Doe", "Software Engineer", 50000⟩ : Employee)
      ∉ records (ListEmployees (afterDeletingFirst johnDoe janeRoe johnDoe)
          (listRequest "1" "10")).2 :=
  ((ListEmployees_within_len (afterDeletingFirst johnDoe janeRoe johnDoe)
    (listRequest "1" "10")).2.2 johnDoe janeRoe johnDoe).2

/-! ## Pages of a store whose keys match the records -/

theorem storedRecords_pairwise (es : EmployeeStore) (h : KeysMatch es) :
    (storedRecords es).Pairwise (fun a b => a.ID < b.ID) := by
  unfold storedRecords candidateIDs
  rw [List.pairwise_filterMap, List.pairwise_map]
  refine (List.pairwise_lt_range' 1 (len es)).imp ?_
  intro a b hab x hx y hy
  have hx' : x.ID = Int.ofNat a := h _ _ (Option.mem_def.mp hx)
  have hy' : y.ID = Int.ofNat b := h _ _ (Option.mem_def.mp hy)
  rw [hx', hy']
  exact Int.ofNat_lt.mpr hab

theorem sortByID_of_pairwise (l : List Employee)
    (h : l.Pairwise (fun a b => a.ID < b.ID)) : sortByID l = l :=
  List.Sorted.insertionSort_eq (h.imp (fun hab => le_of_lt hab))

/-- With keys that match the records, a page is the window of `limit` stored records
that starts after the first `offset` ones. -/
theorem listPage_eq_window (es : EmployeeStore) (page limit : Int) (hl : 1 ≤ limit)
    (h : KeysMatch es) :
    listPage es page limit
      = ((storedRecords es).drop (wrapInt ((page - 1) * limit)).toNat).take limit.toNat := by
  unfold listPage
  simp only
  rw [scan_eq_take_drop es limit _ _ [] (by simpa using hl)]
  simp only [List.nil_append, List.length_nil, Nat.sub_zero]
  exact sortByID_of_pairwise _
    (((storedRecords_pairwise es h).sublist (List.drop_sublist _ _)).sublist
      (List.take_sublist _ _))

theorem drop_range'_one (s n d : Nat) :
    (List.range' s n).drop d = List.range' (s + d) (n - d) := by
  by_cases hd : d ≤ n
  · have hsplit : List.range' s n = List.range' s d ++ List.range' (s + d) (n - d) := by
      rw [List.range'_append_1]; congr 1; omega
    rw [hsplit, List.drop_left' (by simp)]
  · have h0 : n - d = 0 := by omega
    rw [h0, List.range'_zero]
    exact List.drop_of_length_le (by simp; omega)

theorem take_range'_one (s n t : Nat) :
    (List.range' s n).take t = List.range' s (min t n) := by
  by_cases ht : t ≤ n
  · have hsplit : List.range' s n = List.range' s t ++ List.range' (s + t) (n - t) := by
      rw [List.range'_append_1]; congr 1; omega
    rw [hsplit, List.take_left' (by simp), Nat.min_eq_left ht]
  · rw [Nat.min_eq_right (by omega)]
    exact List.take_of_length_le (by simp; omega)

theorem len_of_keys (es : EmployeeStore) (n : Nat)
    (hkeys : ∀ k : Int, k ∈ es ↔ 1 ≤ k ∧ k ≤ (n : Int)) : len es = n := by
  have hk : es.keys = Finset.Icc (1 : Int) n := by
    ext k
    rw [Finmap.mem_keys, hkeys, Finset.mem_Icc]
  unfold len
  rw [hk, Int.card_Icc]
  omega

theorem map_ID_filterMap (es : EmployeeStore) (h : KeysMatch es) (ids : List Int)
    (hall : ∀ id ∈ ids, id ∈ es) :
    (ids.filterMap (fun id => es.lookup id)).map Employee.ID = ids := by
  induction ids with
  | nil => rfl
  | cons id ids ih =>
    obtain ⟨e, he⟩ := Finmap.mem_iff.mp (hall id (List.mem_cons_self _ _))
    rw [List.filterMap_cons, he]
    simp only [List.map_cons]
    rw [h id e he, ih (fun k hk => hall k (List.mem_cons_of_mem _ hk))]

theorem mem_seedStore (n : Nat) (k : Int) : k ∈ seedStore n ↔ 1 ≤ k ∧ k ≤ (n : Int) := by
  induction n with
  | zero =>
    simp only [seedStore, NewEmployeeStore]
    constructor
    · intro h; exact absurd h Finmap.not_mem_empty
    · intro h; omega
  | succ n ih =>
    simp only [seedStore, Finmap.mem_insert, ih]
    push_cast
    omega

theorem keysMatch_seedStore (n : Nat) : KeysMatch (seedStore n) := by
  induction n with
  | zero => intro k e h; simp [seedStore, NewEmployeeStore] at h
  | succ n ih =>
    intro k e h
    by_cases hk : k = (n : Int) + 1
    · subst hk
      simp only [seedStore, Finmap.lookup_insert, Option.some.injEq] at h
      rw [← h]
    · simp only [seedStore] at h
      rw [Finmap.lookup_insert_of_ne _ hk] at h
      exact ih k e h

/-- C14: on a store whose keys are exactly 1..n, each record carrying its key as `ID`,
and for a page and limit whose product `(page - 1) * limit` stays in the 64-bit range,
`ListEmployees` answers 200 with, in order, the records whose identifiers run from
`(page - 1) * limit + 1` to `min (page * limit) n`: the `ID`s of the array are that
range and every record of it is the one stored under its `ID`; the array is empty
when `(page - 1) * limit` is at least `n`. -/
theorem ListEmployees_contiguous_page (es : EmployeeStore) (n : Nat) (r : Request)
    (hkeys : ∀ k : Int, k ∈ es ↔ 1 ≤ k ∧ k ≤ (n : Int)) (hmatch : KeysMatch es)
    (hfit : (pageParam r - 1) * limitParam r < 2 ^ 63) :
    (ListEmployees es r).2 = ⟨200, Body.employees (records (ListEmployees es r).2)⟩ ∧
      (records (ListEmployees es r).2).map Employee.ID
        = (List.range' (((pageParam r - 1) * limitParam r).toNat + 1)
            (min (pageParam r * limitParam r).toNat n
              - ((pageParam r - 1) * limitParam r).toNat)).map Int.ofNat ∧
      (∀ e ∈ records (ListEmployees es r).2, es.lookup e.ID = some e) ∧
      ((n : Int) ≤ (pageParam r - 1) * limitParam r →
        records (ListEmployees es r).2 = []) := by
  have hp := one_le_pageParam r
  have hl := one_le_limitParam r
  have hlen : len es = n := len_of_keys es n hkeys
  have hO : 0 ≤ (pageParam r - 1) * limitParam r :=
    mul_nonneg (by omega) (by omega)
  have hP : pageParam r * limitParam r = (pageParam r - 1) * limitParam r + limitParam r := by
    ring
  have hw : wrapInt ((pageParam r - 1) * limitParam r) = (pageParam r - 1) * limitParam r :=
    wrapInt_of_inRange _ (by omega) hfit
  have hrec : records (ListEmployees es r).2
      = ((storedRecords es).drop ((pageParam r - 1) * limitParam r).toNat).take
          (limitParam r).toNat := by
    rw [records_ListEmployees, listPage_eq_window es _ _ hl hmatch, hw]
  have hids : (storedRecords es).map Employee.ID = (List.range' 1 n).map Int.ofNat := by
    unfold storedRecords
    rw [map_ID_filterMap es hmatch _ (fun id hid => by
      rw [hkeys, ← hlen]; exact (mem_candidateIDs es id).mp hid)]
    unfold candidateIDs
    rw [hlen]
  refine ⟨rfl, ?_, ?_, ?_⟩
  · rw [hrec, List.map_take, List.map_drop, hids, ← List.map_drop, ← List.map_take,
      drop_range'_one, take_range'_one, hP]
    generalize (pageParam r - 1) * limitParam r = O at hO
    congr 2
    · omega
    · omega
  · intro e he
    rw [records_ListEmployees] at he
    obtain ⟨k, _, _, hk⟩ := mem_listPage es _ _ e he
    rw [hmatch k e hk]
    exact hk
  · intro hbeyond
    rw [hrec]
    have hshort : (storedRecords es).length ≤ ((pageParam r - 1) * limitParam r).toNat := by
      have hle : (storedRecords es).length ≤ (candidateIDs es).length :=
        List.length_filterMap_le _ _
      rw [candidateIDs_length, hlen] at hle
      omega
    rw [List.drop_of_length_le hshort, List.take_nil]

theorem ListEmployees_contiguous_page_witness :
    (records (ListEmployees (seedStore 20) (listRequest "2" "10")).2).map Employee.ID
      = [11, 12, 13, 14, 15, 16, 17, 18, 19, 20] :=
  (ListEmployees_contiguous_page (seedStore 20) 20 (listRequest "2" "10")
    (mem_seedStore 20) (keysMatch_seedStore 20) (by decide)).2.1

/-! ## Pages tile the listing -/

theorem wrapInt_zero : wrapInt 0 = 0 := by decide

/-- The first `j` pages of size `L`, one after the other, are the first `j * L`
stored records, when every page is the window of the stored records it should be. -/
theorem flatMap_pages (recs : List Employee) (L : Nat) (f : Nat → List Employee) :
    ∀ j : Nat, (∀ p, 1 ≤ p → p ≤ j → f p = (recs.drop ((p - 1) * L)).take L) →
      (List.range' 1 j).flatMap f = recs.take (j * L) := by
  intro j
  induction j with
  | zero => intro _; simp
  | succ j ih =>
    intro hf
    rw [List.range'_1_concat, List.flatMap_append, List.flatMap_singleton,
      ih (fun p h₁ h₂ => hf p h₁ (by omega)), hf (1 + j) (by omega) (by omega)]
    have hj : (1 + j - 1) * L = j * L := by
      congr 1; omega
    rw [hj, Nat.succ_mul, List.take_add]

/-- C18: on a store in which each key equals its record's `ID`, for a limit `L` and a
number of pages `k`, both at least 1 and with `k * L` inside the 64-bit range, the
arrays `ListEmployees` returns for pages 1, ..., k with limit `L`, one after the
other, are the array it returns for page 1 with limit `k * L`; that concatenation has
no repeated record. -/
theorem pages_tile (es : EmployeeStore) (hmatch : KeysMatch es) (L k : Nat)
    (hL : 1 ≤ L) (hk : 1 ≤ k) (hfit : ((k * L : Nat) : Int) < 2 ^ 63)
    (req : Nat → Request) (big : Request)
    (hreq : ∀ p, 1 ≤ p → p ≤ k → pageParam (req p) = p ∧ limitParam (req p) = L)
    (hbig : pageParam big = 1 ∧ limitParam big = ((k * L : Nat) : Int)) :
    (List.range' 1 k).flatMap (fun p => records (ListEmployees es (req p)).2)
        = records (ListEmployees es big).2 ∧
      ((List.range' 1 k).flatMap (fun p => records (ListEmployees es (req p)).2)).Nodup := by
  have hkL : 1 ≤ k * L := Nat.mul_pos hk hL
  have hpage : ∀ p, 1 ≤ p → p ≤ k →
      records (ListEmployees es (req p)).2
        = ((storedRecords es).drop ((p - 1) * L)).take L := by
    intro p h₁ h₂
    obtain ⟨hpp, hpl⟩ := hreq p h₁ h₂
    have hle : (p - 1) * L ≤ k * L := Nat.mul_le_mul_right L (by omega)
    have hprod : ((p : Int) - 1) * (L : Int) = (((p - 1) * L : Nat) : Int) := by
      push_cast [Nat.cast_sub h₁]
      ring
    rw [records_ListEmployees, hpp, hpl,
      listPage_eq_window es _ _ (by exact_mod_cast hL) hmatch, hprod,
      wrapInt_of_inRange _ (by omega) (by omega), Int.toNat_ofNat, Int.toNat_ofNat]
  have hbigrec : records (ListEmployees es big).2 = (storedRecords es).take (k * L) := by
    rw [records_ListEmployees, hbig.1, hbig.2,
      listPage_eq_window es _ _ (by exact_mod_cast hkL) hmatch, Int.toNat_ofNat]
    simp only [sub_self, zero_mul, wrapInt_zero, Int.toNat_zero, List.drop_zero]
  have hcat := flatMap_pages (storedRecords es) L
    (fun p => records (ListEmployees es (req p)).2) k hpage
  refine ⟨by rw [hcat, hbigrec], ?_⟩
  rw [hcat]
  have hnodup : (storedRecords es).Nodup :=
    (storedRecords_pairwise es hmatch).imp (fun hab heq => by rw [heq] at hab; omega)
  exact hnodup.sublist (List.take_sublist _ _)

theorem pages_tile_witness :
    records (ListEmployees (seedStore 5) (listRequest "1" "2")).2
        ++ records (ListEmployees (seedStore 5) (listRequest "2" "2")).2
      = records (ListEmployees (seedStore 5) (listRequest "1" "4")).2 := by
  have h := (pages_tile (seedStore 5) (keysMatch_seedStore 5) 2 2 (by decide) (by decide)
    (by decide) (fun p => listRequest (toString p) "2") (listRequest "1" "4")
    (fun p h₁ h₂ => by
      have hp : p = 1 ∨ p = 2 := by omega
      rcases hp with rfl | rfl <;> decide)
    (by decide)).1
  simpa [List.range'] using h

/-! ## Invariants along sequences of requests -/

/-- A property of the store that every served call preserves, for calls satisfying
`P`, holds after any sequence of such calls. -/
theorem run_preserves (Inv : EmployeeStore → Prop) (P : EmployeeStore → Call → Prop)
    (hstep : ∀ es c, Inv es → P es c → Inv (serve es c).1) :
    ∀ (calls : List Call) (es : EmployeeStore), Inv es → alongRun P es calls →
      Inv (run es calls) := by
  intro calls
  induction calls with
  | nil => intro es h _; exact h
  | cons c cs ih => intro es h hP; exact ih _ (hstep es c h hP.1) hP.2

theorem CreateEmployee_of_body (es : EmployeeStore) (r : Request) (e : Employee)
    (h : r.body = some e) :
    CreateEmployee es r
      = (es.insert ((len es : Int) + 1) ⟨(len es : Int) + 1, e.Name, e.Position, e.Salary⟩,
          ⟨200, Body.employee ⟨(len es : Int) + 1, e.Name, e.Position, e.Salary⟩⟩) := by
  simp [CreateEmployee, h, StatusOK]

theorem UpdateEmployee_of_present (es : EmployeeStore) (r : Request) (b : Employee) (id : Int)
    (hb : r.body = some b) (hid : Atoi (getValue r.vars "id") = some id) (hmem : id ∈ es) :
    UpdateEmployee es r = (es.insert id b, ⟨200, Body.employee b⟩) := by
  obtain ⟨old, hold⟩ := Finmap.mem_iff.mp hmem
  simp [UpdateEmployee, hb, hid, hold, StatusOK]

/-- An update either leaves the store as it is or is the successful replacement of the
record under a key of the mapping. -/
theorem UpdateEmployee_cases (es : EmployeeStore) (r : Request) :
    ((UpdateEmployee es r).1 = es ∧ (UpdateEmployee es r).2.status ≠ 200) ∨
      ∃ b id, r.body = some b ∧ Atoi (getValue r.vars "id") = some id ∧ id ∈ es ∧
        UpdateEmployee es r = (es.insert id b, ⟨200, Body.employee b⟩) := by
  cases hb : r.body with
  | none => left; simp [UpdateEmployee, hb, httpError, StatusBadRequest]
  | some b =>
    cases hid : Atoi (getValue r.vars "id") with
    | none => left; simp [UpdateEmployee, hb, hid, httpError, StatusBadRequest]
    | some id =>
      cases hl : es.lookup id with
      | none => left; simp [UpdateEmployee, hb, hid, hl, httpError, StatusNotFound]
      | some old =>
        right
        exact ⟨b, id, rfl, rfl, Finmap.mem_of_lookup_eq_some hl,
          UpdateEmployee_of_present es r b id hb hid (Finmap.mem_of_lookup_eq_some hl)⟩

/-- A delete either leaves the store as it is or erases a key of the mapping. -/
theorem DeleteEmployee_cases (es : EmployeeStore) (r : Request) :
    ((DeleteEmployee es r).1 = es ∧ (DeleteEmployee es r).2.status ≠ 200) ∨
      ∃ id, Atoi (getValue r.vars "id") = some id ∧ id ∈ es ∧
        (DeleteEmployee es r).1 = es.erase id ∧ (DeleteEmployee es r).2.status = 200 := by
  cases hid : Atoi (getValue r.vars "id") with
  | none => left; simp [DeleteEmployee, hid, httpError, StatusBadRequest]
  | some id =>
    cases hl : es.lookup id with
    | none => left; simp [DeleteEmployee, hid, hl, httpError, StatusNotFound]
    | some old =>
      right
      exact ⟨id, rfl, Finmap.mem_of_lookup_eq_some hl, by simp [DeleteEmployee, hid, hl],
        by simp [DeleteEmployee, hid, hl, StatusOK]⟩

theorem keysMatch_empty : KeysMatch NewEmployeeStore := by
  intro k e h
  simp [NewEmployeeStore] at h

theorem keysMatch_insert (es : EmployeeStore) (id : Int) (b : Employee)
    (h : KeysMatch es) (hb : b.ID = id) : KeysMatch (es.insert id b) := by
  intro k e hk
  by_cases hki : k = id
  · subst hki
    rw [Finmap.lookup_insert] at hk
    rw [← Option.some.inj hk]; exact hb
  · rw [Finmap.lookup_insert_of_ne _ hki] at hk
    exact h k e hk

theorem keysMatch_erase (es : EmployeeStore) (id : Int) (h : KeysMatch es) :
    KeysMatch (es.erase id) := by
  intro k e hk
  by_cases hki : k = id
  · subst hki
    rw [Finmap.lookup_erase] at hk
    exact absurd hk (by simp)
  · rw [Finmap.lookup_erase_ne hki] at hk
    exact h k e hk

theorem keysMatch_create (es : EmployeeStore) (r : Request) (h : KeysMatch es) :
    KeysMatch (CreateEmployee es r).1 := by
  cases hb : r.body with
  | none => simpa [CreateEmployee, hb] using h
  | some e =>
    rw [CreateEmployee_of_body es r e hb]
    exact keysMatch_insert es _ _ h rfl

theorem keysMatch_delete (es : EmployeeStore) (r : Request) (h : KeysMatch es) :
    KeysMatch (DeleteEmployee es r).1 := by
  rcases DeleteEmployee_cases es r with ⟨hs, _⟩ | ⟨id, _, _, hs, _⟩
  · rw [hs]; exact h
  · rw [hs]; exact keysMatch_erase es id h

/-- A served call that is not an update with a body `ID` other than its path identifier
keeps the keys matching the records. -/
theorem keysMatch_serve (es : EmployeeStore) (c : Call) (h : KeysMatch es)
    (hc : alignedUpdate es c) : KeysMatch (serve es c).1 := by
  obtain ⟨route, r⟩ := c
  cases route with
  | list => exact h
  | get => simp only [serve]; rw [GetEmployee_store]; exact h
  | create => exact keysMatch_create es r h
  | delete => exact keysMatch_delete es r h
  | update =>
    simp only [serve]
    rcases UpdateEmployee_cases es r with ⟨hs, _⟩ | ⟨b, id, hb, hid, _, hs⟩
    · rw [hs]; exact h
    · have hal := hc rfl (by simp only [serve]; rw [hs])
      simp only [hb, hid, Option.map_some', Option.some.injEq] at hal
      rw [hs]
      exact keysMatch_insert es id b h hal

/-- C12: in every store reached from the empty store by a sequence of calls in which
every successful update carries its path identifier as the body `ID`, each key equals
the `ID` of the record stored under it. A served call can break this only if it is a
successful update whose body `ID` differs from the path identifier, and such an update
does break it. -/
theorem keysMatch_reachable (calls : List Call)
    (h : alongRun alignedUpdate NewEmployeeStore calls) :
    KeysMatch (run NewEmployeeStore calls) ∧
      (∀ (es : EmployeeStore) (c : Call), KeysMatch es → ¬ KeysMatch (serve es c).1 →
        c.route = Route.update ∧ (serve es c).2.status = 200 ∧
          ∃ b id, c.request.body = some b ∧
            Atoi (getValue c.request.vars "id") = some id ∧ id ∈ es ∧ b.ID ≠ id) ∧
      (∀ (es : EmployeeStore) (r : Request) (b : Employee) (id : Int),
        r.body = some b → Atoi (getValue r.vars "id") = some id → id ∈ es → b.ID ≠ id →
          ¬ KeysMatch (UpdateEmployee es r).1) := by
  refine ⟨run_preserves KeysMatch alignedUpdate keysMatch_serve calls _ keysMatch_empty h,
    ?_, ?_⟩
  · intro es c hes hbroken
    have hnot : ¬ alignedUpdate es c := fun hal => hbroken (keysMatch_serve es c hes hal)
    unfold alignedUpdate at hnot
    push_neg at hnot
    obtain ⟨hroute, hstatus, hne⟩ := hnot
    refine ⟨hroute, hstatus, ?_⟩
    obtain ⟨route, r⟩ := c
    simp only at hroute
    subst hroute
    simp only [serve] at hstatus
    rcases UpdateEmployee_cases es r with ⟨_, hfail⟩ | ⟨b, id, hb, hid, hmem, _⟩
    · exact absurd hstatus hfail
    · refine ⟨b, id, hb, hid, hmem, ?_⟩
      intro heq
      apply hne
      simp only [hb, hid, Option.map_some', heq]
  · intro es r b id hb hid hmem hne hkeys
    rw [UpdateEmployee_of_present es r b id hb hid hmem] at hkeys
    exact hne (hkeys id b (Finmap.lookup_insert es))

theorem keysMatch_reachable_witness :
    alongRun alignedUpdate NewEmployeeStore alignedCalls ∧
      KeysMatch (run NewEmployeeStore alignedCalls) :=
  ⟨by decide, (keysMatch_reachable alignedCalls (by decide)).1⟩

/-- C16: there is a store reached from the empty store by creates and deletes on
which `CreateEmployee` assigns an identifier that is already a key, puts the new
record in the place of the one stored there, and leaves the number of entries as it
was. -/
theorem create_collides_after_delete :
    ∃ calls : List Call,
      (∀ c ∈ calls, c.route = Route.create ∨ c.route = Route.delete) ∧
      ∃ (r : Request) (e old : Employee),
        r.body = some e ∧
        (run NewEmployeeStore calls).lookup ((len (run NewEmployeeStore calls) : Int) + 1)
          = some old ∧
        (CreateEmployee (run NewEmployeeStore calls) r).2
          = ⟨200, Body.employee
              ⟨(len (run NewEmployeeStore calls) : Int) + 1, e.Name, e.Position, e.Salary⟩⟩ ∧
        (CreateEmployee (run NewEmployeeStore calls) r).1.lookup
            ((len (run NewEmployeeStore calls) : Int) + 1)
          = some ⟨(len (run NewEmployeeStore calls) : Int) + 1, e.Name, e.Position,
              e.Salary⟩ ∧
        old ≠ ⟨(len (run NewEmployeeStore calls) : Int) + 1, e.Name, e.Position, e.Salary⟩ ∧
        len (CreateEmployee (run NewEmployeeStore calls) r).1
          = len (run NewEmployeeStore calls) := by
  refine ⟨collidingCalls, by decide, postRequest janeRoe, janeRoe,
    ⟨3, "John Doe", "Software Engineer", 50000⟩, ?_⟩
  decide

theorem contiguous_empty : Contiguous NewEmployeeStore := by
  intro k
  rw [len_empty]
  constructor
  · intro h; exact absurd h Finmap.not_mem_empty
  · intro h
    have h₂ : k ≤ ((0 : Nat) : Int) := h.2
    have h₁ := h.1
    omega

theorem succ_len_not_mem (es : EmployeeStore) (h : Contiguous es) :
    ((len es : Int) + 1) ∉ es := by
  intro hmem
  have := ((h _).mp hmem).2
  omega

theorem contiguous_create (es : EmployeeStore) (r : Request) (h : Contiguous es) :
    Contiguous (CreateEmployee es r).1 := by
  cases hb : r.body with
  | none => simpa [CreateEmployee, hb] using h
  | some e =>
    rw [CreateEmployee_of_body es r e hb]
    intro k
    simp only
    rw [len_insert_of_not_mem es _ _ (succ_len_not_mem es h), Finmap.mem_insert, h k]
    push_cast
    omega

theorem contiguous_update (es : EmployeeStore) (r : Request) (h : Contiguous es) :
    Contiguous (UpdateEmployee es r).1 := by
  rcases UpdateEmployee_cases es r with ⟨hs, _⟩ | ⟨b, id, _, _, hmem, hs⟩
  · rw [hs]; exact h
  · rw [hs]
    intro k
    simp only
    rw [len_insert_of_mem es id b hmem, Finmap.mem_insert, ← h k]
    constructor
    · rintro (rfl | hk)
      · exact hmem
      · exact hk
    · intro hk; exact Or.inr hk

/-- A served call that is not a successful delete keeps the key set equal to
`1, ..., len`. -/
theorem contiguous_serve (es : EmployeeStore) (c : Call) (h : Contiguous es)
    (hc : noDelete es c) : Contiguous (serve es c).1 := by
  obtain ⟨route, r⟩ := c
  cases route with
  | list => exact h
  | get => simp only [serve]; rw [GetEmployee_store]; exact h
  | create => exact contiguous_create es r h
  | update => exact contiguous_update es r h
  | delete =>
    simp only [serve]
    rw [DeleteEmployee_error_store es r (hc rfl)]
    exact h

/-- C20: in every store reached from the empty store by a sequence of calls none of
which is a successful delete, the key set is exactly `1, ..., len`; so every create
with a decodable body there inserts under a key that was not in use and makes the
number of entries one larger. -/
theorem contiguous_without_delete (calls : List Call)
    (h : alongRun noDelete NewEmployeeStore calls) :
    Contiguous (run NewEmployeeStore calls) ∧
      (run NewEmployeeStore calls).keys
        = Finset.Icc (1 : Int) (len (run NewEmployeeStore calls)) ∧
      ∀ (r : Request) (e : Employee), r.body = some e →
        ((len (run NewEmployeeStore calls) : Int) + 1) ∉ run NewEmployeeStore calls ∧
        (CreateEmployee (run NewEmployeeStore calls) r).1
          = (run NewEmployeeStore calls).insert ((len (run NewEmployeeStore calls) : Int) + 1)
              ⟨(len (run NewEmployeeStore calls) : Int) + 1, e.Name, e.Position, e.Salary⟩ ∧
        len (CreateEmployee (run NewEmployeeStore calls) r).1
          = len (run NewEmployeeStore calls) + 1 := by
  have hc : Contiguous (run NewEmployeeStore calls) :=
    run_preserves Contiguous noDelete contiguous_serve calls _ contiguous_empty h
  refine ⟨hc, ?_, ?_⟩
  · ext k
    rw [Finmap.mem_keys, hc k, Finset.mem_Icc]
  · intro r e hb
    refine ⟨succ_len_not_mem _ hc, ?_, ?_⟩
    · rw [CreateEmployee_of_body _ r e hb]
    · rw [CreateEmployee_of_body _ r e hb]
      exact len_insert_of_not_mem _ _ _ (succ_len_not_mem _ hc)

theorem contiguous_without_delete_witness :
    alongRun noDelete NewEmployeeStore deleteFreeCalls ∧
      Contiguous (run NewEmployeeStore deleteFreeCalls) ∧
      len (CreateEmployee (run NewEmployeeStore deleteFreeCalls) (postRequest johnDoe)).1
        = len (run NewEmployeeStore deleteFreeCalls) + 1 :=
  ⟨by decide, (contiguous_without_delete deleteFreeCalls (by decide)).1,
    ((contiguous_without_delete deleteFreeCalls (by decide)).2.2 (postRequest johnDoe)
      johnDoe rfl).2.2⟩

end Handlers
